import Mathlib

/-!
Verification of the bambu-moonraker-shim core against its specification.

This file gives a shallow embedding, in Lean, of the parts of the source
that the checked properties are about:

* `bambu_moonraker_shim/state_manager.py`: the observable-state store
  (`StateManager.update_state`), the temperature-history buffer
  (`StateManager._append_history_value`) and the print-job tracker
  (`StateManager._handle_print_state_change`).
* `bambu_moonraker_shim/bambu_client.py`: command publication
  (`BambuClient.publish_command`) and heater-temperature commands
  (`BambuClient.send_temperature_command`).
* `bambu_moonraker_shim/fan_control.py`: fan-speed normalization and
  fan-command encoding.
* `bambu_moonraker_shim/ftps_client.py`: the NLST fallback path of
  `BambuFTPSClient.list_files`.

Python dicts are embedded as insertion-ordered association lists
(`dget` is `dict.get`, `dset` is `dict.__setitem__`: replace in place,
or append for new keys).  Python numbers are embedded as rationals, and
Python's bankers rounding `round` as `pythonRound`.  Methods returning
`None` while logging are embedded as functions returning an explicit
outcome value; wall-clock reads (`time.time()`) and fresh ids
(`uuid.uuid4`) are passed in as parameters.
-/

/-- A scalar value held in the observable state: a Python number, string
or boolean.  Python ints and floats are both embedded as rationals. -/
inductive PyVal where
  | num (q : ℚ)
  | str (s : String)
  | boolV (b : Bool)
deriving DecidableEq, Repr

/-- Numeric view of a Python value: `True`/`False` compare as `1`/`0`
under Python `==`, so the boolean case yields a number. -/
def pyNumVal : PyVal → Option ℚ
  | .num q => some q
  | .str _ => none
  | .boolV b => some (if b then 1 else 0)

/-- Python `==` on scalar values: cross-type numeric equality between
ints, floats and booleans; everything else is structural. -/
def pyEq (a b : PyVal) : Bool :=
  match pyNumVal a, pyNumVal b with
  | some x, some y => decide (x = y)
  | _, _ => decide (a = b)

/-- Python `current_category.get(key) != value`: an absent key (`None`)
is unequal to every stored value. -/
def pyNe (old : Option PyVal) (v : PyVal) : Bool :=
  match old with
  | some w => !pyEq w v
  | none => true

/-- A flat field map of one subsystem (a Python dict, insertion ordered). -/
abbrev StateObj := List (String × PyVal)

/-- The observable state: subsystem name to field map (a Python dict). -/
abbrev StateMap := List (String × StateObj)

/-- Python `d.get(k)` on an insertion-ordered dict embedded as an
association list. -/
def dget {α : Type} : List (String × α) → String → Option α
  | [], _ => none
  | (k', v) :: rest, k => if k' = k then some v else dget rest k

/-- Python `d[k] = v`: replace the value of an existing key in place,
or append a new key at the end (insertion order). -/
def dset {α : Type} : List (String × α) → String → α → List (String × α)
  | [], k, v => [(k, v)]
  | (k', v') :: rest, k, v =>
    if k' = k then (k, v) :: rest else (k', v') :: dset rest k v

/-- Two-level lookup: the value of field `k` of subsystem `c`. -/
def dget2 (m : StateMap) (c k : String) : Option PyVal :=
  (dget m c).bind (fun obj => dget obj k)

/-- Inner field loop of `StateManager.update_state`: walk the update's
field map; for each field whose value differs from the current one
(Python `!=`), store the new value and record it in `category_changes`.
Returns the updated field map and the recorded changes, in order. -/
def applyFields : StateObj → StateObj → StateObj × StateObj
  | cur, [] => (cur, [])
  | cur, (k, v) :: rest =>
    if pyNe (dget cur k) v then
      let out := applyFields (dset cur k v) rest
      (out.1, (k, v) :: out.2)
    else
      applyFields cur rest

/-- `StateManager.update_state`, state-and-delta part: for each category
of the update present in the state schema, apply the field loop and, when
it recorded at least one change, add the category to `changed_objects`;
categories absent from the state are skipped.  Returns the new state and
`changed_objects`.  (History sampling and job tracking are side effects
embedded separately as `append_history_value` and
`handle_print_state_change`.) -/
def update_state : StateMap → StateMap → StateMap × StateMap
  | st, [] => (st, [])
  | st, (c, values) :: rest =>
    match dget st c with
    | some cur =>
      let applied := applyFields cur values
      let tail := update_state (dset st c applied.1) rest
      (tail.1, if applied.2 = [] then tail.2 else (c, applied.2) :: tail.2)
    | none => update_state st rest

/-- Final guard of `StateManager.update_state`: subscribers are notified
exactly when `changed_objects` is non-empty; the notification payload is
the delta itself. -/
def update_state_notification (st updates : StateMap) : Option StateMap :=
  let delta := (update_state st updates).2
  if delta = [] then none else some delta

/-- `StateManager._append_history_value` for one series: ignore `None`,
otherwise append the sample and, when the series now exceeds 600 samples
(`_max_temp_samples`), pop the oldest (index 0). -/
def append_history_value (series : List ℚ) (value : Option ℚ) : List ℚ :=
  match value with
  | none => series
  | some v =>
    let s := series ++ [v]
    if 600 < s.length then s.drop 1 else s

/-- One persisted print-job record, as assembled by
`StateManager._handle_print_state_change` for `sqlite_manager.add_job`. -/
structure JobRecord where
  job_id : String
  filename : String
  start_time : Option ℚ
  end_time : ℚ
  total_duration : ℚ
  status : String
  filament_used : ℚ
deriving DecidableEq, Repr

/-- The job-tracking fields of `StateManager` plus the stream of records
handed to the persistence layer. -/
structure JobState where
  current_job_id : Option String
  current_job_start : Option ℚ
  last_print_state : String
  jobs : List JobRecord
deriving DecidableEq, Repr

/-- Python truthiness of `self._current_job_id` (an optional string):
`None` and the empty string are falsy. -/
def truthyId : Option String → Bool
  | none => false
  | some s => !(s = "")

/-- Python `end_time - self._current_job_start if self._current_job_start
else 0`: the start is falsy when `None` or `0.0`. -/
def pyDuration (start : Option ℚ) (now : ℚ) : ℚ :=
  match start with
  | some t => if t = 0 then 0 else now - t
  | none => 0

/-- `StateManager._handle_print_state_change`: open a fresh job on any
change of the reported state to `printing`; close the open job on
`complete` with status `completed`; close it on `cancelled`, `error` or
`standby` (the latter recorded as `cancelled`); otherwise just record the
last seen state.  `fresh_id` stands for `str(uuid.uuid4())[:8]` and `now`
for `time.time()`. -/
def handle_print_state_change (s : JobState) (new_state filename : String)
    (filament_used : ℚ) (fresh_id : String) (now : ℚ) : JobState :=
  if new_state = "printing" ∧ s.last_print_state ≠ "printing" then
    { s with current_job_id := some fresh_id,
             current_job_start := some now,
             last_print_state := new_state }
  else if new_state = "complete" ∧ truthyId s.current_job_id then
    let record : JobRecord :=
      { job_id := s.current_job_id.getD "", filename := filename,
        start_time := s.current_job_start, end_time := now,
        total_duration := pyDuration s.current_job_start now,
        status := "completed", filament_used := filament_used }
    { s with jobs := s.jobs ++ [record],
             current_job_id := none,
             current_job_start := none,
             last_print_state := new_state }
  else if (new_state = "cancelled" ∨ new_state = "error" ∨ new_state = "standby")
      ∧ truthyId s.current_job_id then
    let status := if new_state = "cancelled" ∨ new_state = "error"
                  then new_state else "cancelled"
    let record : JobRecord :=
      { job_id := s.current_job_id.getD "", filename := filename,
        start_time := s.current_job_start, end_time := now,
        total_duration := pyDuration s.current_job_start now,
        status := status, filament_used := filament_used }
    { s with jobs := s.jobs ++ [record],
             current_job_id := none,
             current_job_start := none,
             last_print_state := new_state }
  else
    { s with last_print_state := new_state }

/-- Commands sent on the device request channel by `BambuClient` that the
checked properties involve (`pause`, `resume`, `stop`, `gcode_line`). -/
inductive VendorCmd where
  | pause
  | resume
  | stop
  | gcodeLine (param : String)
deriving DecidableEq, Repr

/-- JSON string escaping as applied by `json.dumps` to the characters
that occur in the encoded g-code lines. -/
def jsonEscape (s : String) : String :=
  s.data.foldl (fun acc c =>
    acc ++ (if c = '\n' then "\\n"
            else if c = '"' then "\\\""
            else if c = '\\' then "\\\\"
            else String.singleton c)) ""

/-- `json.dumps` of the command dicts built by `BambuClient` (all carry
the fixed placeholder `sequence_id` of `"0"`). -/
def serializeCmd : VendorCmd → String
  | .pause =>
    "\x7b\"print\": \x7b\"sequence_id\": \"0\", \"command\": \"pause\"\x7d\x7d"
  | .resume =>
    "\x7b\"print\": \x7b\"sequence_id\": \"0\", \"command\": \"resume\"\x7d\x7d"
  | .stop =>
    "\x7b\"print\": \x7b\"sequence_id\": \"0\", \"command\": \"stop\"\x7d\x7d"
  | .gcodeLine g =>
    "\x7b\"print\": \x7b\"sequence_id\": \"0\", \"command\": \"gcode_line\", \"param\": \""
      ++ jsonEscape g ++ "\"\x7d\x7d"

/-- Observable outcome of one `BambuClient.publish_command` call.
`errorNotConnected` is the outcome the specification describes for a
disconnected session; the embedded code never produces it: its
disconnected path logs and returns `None` (`dropped`). -/
inductive PubStep where
  | errorNotConnected
  | dropped
  | published (topic : String) (cmd : VendorCmd) (payload : String)
deriving DecidableEq, Repr

/-- `BambuClient.publish_command`: when `self._mqtt_client` is unset or
`self.connected` is false, log and return (`dropped`); otherwise publish
the serialized command on `device/{serial}/request`. -/
def publish_command (hasClient connected : Bool) (serial : String)
    (cmd : VendorCmd) : PubStep :=
  if !hasClient || !connected then
    .dropped
  else
    .published ("device/" ++ serial ++ "/request") cmd (serializeCmd cmd)

/-- Result dict of `BambuClient.send_temperature_command`: either one of
its structured error returns or `{"result": "ok"}`. -/
inductive TempCmdResult where
  | errUnknownHeater (heater : String)
  | errOutOfRange (target lo hi : ℚ)
  | errNotConnected
  | ok
deriving DecidableEq, Repr

/-- Python `round` (bankers rounding, half to even), as applied by
`int(round(target_value))` and by fan-speed normalization. -/
def pythonRound (q : ℚ) : ℤ :=
  if q - ⌊q⌋ < 1/2 then ⌊q⌋
  else if 1/2 < q - ⌊q⌋ then ⌊q⌋ + 1
  else if ⌊q⌋ % 2 = 0 then ⌊q⌋ else ⌊q⌋ + 1

/-- `BambuClient.send_gcode_line`: wrap the line in a `gcode_line`
command and publish it. -/
def send_gcode_line (hasClient connected : Bool) (serial gcode : String) :
    PubStep :=
  publish_command hasClient connected serial (.gcodeLine gcode)

/-- `BambuClient.send_temperature_command`: validate the heater name and
the target range (bed 0-120, extruder 0-300), then require a live
connection, then encode `M190` for the bed and `M109`/`M104` for the
extruder and send the line.  Returns the result dict and the list of
publish steps performed. -/
def send_temperature_command (hasClient connected : Bool) (serial heater : String)
    (target : ℚ) (wait : Bool) : TempCmdResult × List PubStep :=
  if heater = "bed" ∨ heater = "extruder" then
    let lo : ℚ := 0
    let hi : ℚ := if heater = "bed" then 120 else 300
    if target < lo ∨ hi < target then
      (.errOutOfRange target lo hi, [])
    else if !hasClient || !connected then
      (.errNotConnected, [])
    else
      let rounded := pythonRound target
      let cmd := if heater = "bed" then "M190"
                 else if wait || decide (rounded = 0) then "M109" else "M104"
      let gcode := cmd ++ " S" ++ toString rounded ++ " \n"
      (.ok, [send_gcode_line hasClient connected serial gcode])
  else
    (.errUnknownHeater heater, [])

/-- `BambuClient.set_bed_temp`. -/
def set_bed_temp (hasClient connected : Bool) (serial : String) (temp_c : ℚ)
    (wait : Bool) : TempCmdResult × List PubStep :=
  send_temperature_command hasClient connected serial "bed" temp_c wait

/-- The g-code parameters of the messages actually published. -/
def sent_gcodes (steps : List PubStep) : List String :=
  steps.filterMap (fun s =>
    match s with
    | .published _ (.gcodeLine g) _ => some g
    | _ => none)

/-- Fan identifiers of `fan_control.FanTarget`. -/
inductive FanTarget where
  | part
  | aux
  | chamber
deriving DecidableEq, Repr

/-- `fan_control.FAN_ALIASES`. -/
def fanAliases : List (String × FanTarget) :=
  [("part", .part), ("part_cooling", .part), ("toolhead", .part),
   ("aux", .aux), ("auxiliary", .aux),
   ("chamber", .chamber), ("rear", .chamber), ("case", .chamber),
   ("exhaust", .chamber)]

/-- `fan_control.FAN_CHANNELS`. -/
def fanChannel : FanTarget → ℕ
  | .part => 1
  | .aux => 2
  | .chamber => 3

/-- `fan_control.normalize_fan_target`: empty or missing names default to
the part fan; known aliases map to their target; anything else raises
`ValueError`. -/
def normalize_fan_target (name : Option String) : Except String FanTarget :=
  match name with
  | none => .ok .part
  | some n =>
    if n = "" then .ok .part
    else
      let key := (n.trim).toLower
      match dget fanAliases key with
      | some t => .ok t
      | none => .error ("Unknown fan target " ++ n)

/-- Inputs accepted by `fan_control._parse_numeric_speed`: an int or
float, a numeric string, or a percent string `"NN%"` (carrying the
already-parsed number `NN`). -/
inductive SpeedInput where
  | num (q : ℚ)
  | strNum (q : ℚ)
  | strPercent (q : ℚ)
deriving DecidableEq, Repr

/-- `fan_control._parse_numeric_speed`: numbers pass through, percent
strings are divided by 100. -/
def parse_numeric_speed : SpeedInput → ℚ
  | .num q => q
  | .strNum q => q
  | .strPercent q => q / 100

/-- `fan_control.normalize_fan_speed`: values within `[0, 1]` are scaled
by 255, everything else is rounded as-is; the result is clamped into
`[0, 255]`. -/
def normalize_fan_speed (value : SpeedInput) : ℤ :=
  let numeric := parse_numeric_speed value
  let scaled := if 0 ≤ numeric ∧ numeric ≤ 1
                then pythonRound (numeric * 255)
                else pythonRound numeric
  max 0 (min 255 scaled)

/-- `fan_control.FanCommand`. -/
structure FanCommand where
  target : FanTarget
  speed : ℤ
  gcode : String
deriving DecidableEq, Repr

/-- `fan_control.build_fan_command`: resolve the target, normalize the
speed and encode `M106 P{channel} S{speed}\n`. -/
def build_fan_command (fan : Option String) (speed : SpeedInput) :
    Except String FanCommand :=
  match normalize_fan_target fan with
  | .error e => .error e
  | .ok t =>
    let s := normalize_fan_speed speed
    .ok { target := t, speed := s,
          gcode := "M106 P" ++ toString (fanChannel t) ++ " S" ++ toString s ++ "\n" }

/-- Outcome of one `self.ftp.size(path)` probe in the NLST fallback of
`BambuFTPSClient.list_files`: the call may raise, return `None`, or
return a size. -/
inductive SizeResult where
  | fails
  | noneSize
  | sz (n : ℤ)
deriving DecidableEq, Repr

/-- One entry of the listing returned by `BambuFTPSClient.list_files`
(`modified` is the `time.time()` wall-clock value, passed in as `now`). -/
structure FileEntry where
  name : String
  is_dir : Bool
  size : ℤ
  modified : ℚ
deriving DecidableEq, Repr

/-- `known_dirs` of `BambuFTPSClient.list_files`: vendor housekeeping
directory names. -/
def known_dirs : List String :=
  ["logger", "recorder", "image", "ipcam", "timelapse", "cache",
   "language", "model", "corelogger", "verify_job", ".Spotlight-V100",
   ".fseventsd"]

/-- Python `path.rstrip("/")`. -/
def rstripSlash (s : String) : String :=
  ⟨(s.data.reverse.dropWhile (fun c => c = '/')).reverse⟩

/-- The path handed to the SIZE probe for one listed name. -/
def fallback_full_path (path name : String) : String :=
  if path = "/" then "/" ++ name else rstripSlash path ++ "/" ++ name

/-- Python `"." not in name` (single-character needle). -/
def hasDot (name : String) : Bool := name.data.contains '.'

/-- Per-name body of the NLST fallback loop: denylisted names are marked
directories outright; others are probed with SIZE, and on probe failure a
name without a dot is classified as a directory.  Returns the
`(is_dir, size)` pair recorded in the entry. -/
def fallback_classify (probe : String → SizeResult) (path name : String) :
    Bool × ℤ :=
  if name ∈ known_dirs then (true, 0)
  else
    match probe (fallback_full_path path name) with
    | .sz n => (false, n)
    | .noneSize => (false, 0)
    | .fails => (!hasDot name, 0)

/-- The NLST fallback path of `BambuFTPSClient.list_files`: one entry per
raw name, skipping only `"."` and `".."`; `probe` models
`self.ftp.size`, `names` the NLST reply and `now` the wall clock. -/
def list_files_fallback (now : ℚ) (probe : String → SizeResult)
    (path : String) : List String → List FileEntry
  | [] => []
  | name :: rest =>
    if name = "." ∨ name = ".." then list_files_fallback now probe path rest
    else
      let cls := fallback_classify probe path name
      { name := name, is_dir := cls.1, size := cls.2, modified := now }
        :: list_files_fallback now probe path rest

/-- A concrete prior observable state used to exercise the state-store
theorems on an input the kernel can evaluate. -/
def demoState : StateMap :=
  [("print_stats", [("state", PyVal.str "standby"), ("filename", PyVal.str "")]),
   ("fan", [("speed", PyVal.str "off")])]

/-- A concrete update map: one known subsystem with one changed and one
unchanged field, and one subsystem outside the schema. -/
def demoUpdates : StateMap :=
  [("print_stats", [("state", PyVal.str "printing"), ("filename", PyVal.str "")]),
   ("chamber_misc", [("led", PyVal.str "on")])]

/-- Job-tracker state with an open job whose last observed status is
`paused`, as reached after a print was started and then paused. -/
def pausedOpenJob : JobState :=
  { current_job_id := some "job1", current_job_start := some 5,
    last_print_state := "paused", jobs := [] }

theorem pythonRound_cases (q : ℚ) :
    pythonRound q = ⌊q⌋ ∨ pythonRound q = ⌊q⌋ + 1 := by
  unfold pythonRound
  split_ifs <;> simp

theorem floor_le_pythonRound (q : ℚ) : ⌊q⌋ ≤ pythonRound q := by
  rcases pythonRound_cases q with h | h <;> omega

theorem pythonRound_le_floor_add_one (q : ℚ) : pythonRound q ≤ ⌊q⌋ + 1 := by
  rcases pythonRound_cases q with h | h <;> omega

theorem pythonRound_intCast (n : ℤ) : pythonRound (n : ℚ) = n := by
  unfold pythonRound
  rw [Int.floor_intCast]
  norm_num

theorem pythonRound_le_of_le {q : ℚ} {n : ℤ} (h : q ≤ (n : ℚ)) :
    pythonRound q ≤ n := by
  rcases eq_or_lt_of_le h with h' | h'
  · simp [h', pythonRound_intCast]
  · have hf : ⌊q⌋ < n := Int.floor_lt.mpr h'
    have h2 := pythonRound_le_floor_add_one q
    omega

theorem le_pythonRound_of_le {q : ℚ} {n : ℤ} (h : (n : ℚ) ≤ q) :
    n ≤ pythonRound q :=
  le_trans (Int.le_floor.mpr h) (floor_le_pythonRound q)

theorem normalize_fan_speed_nonpos {v : SpeedInput} {x : ℚ} (hx : x < 0)
    (hp : parse_numeric_speed v = x) : normalize_fan_speed v = 0 := by
  have hr : pythonRound x ≤ 0 := by
    have h1 : ⌊x⌋ < 0 := Int.floor_lt.mpr (by exact_mod_cast hx)
    have h2 := pythonRound_le_floor_add_one x
    omega
  have hcond : ¬(0 ≤ x ∧ x ≤ 1) := fun hc => absurd hc.1 (not_le.mpr hx)
  simp only [normalize_fan_speed, hp]
  rw [if_neg hcond]
  omega

/-- C5 (corrected). Fan-speed normalization clamps numeric inputs into
`[0, 255]`: negative numbers and negative percent strings normalize to 0,
numbers above 255 normalize to 255, and every result lies in `[0, 255]`.
Percent strings above 100% do not clamp to 255: they are divided by 100
and rounded on the raw 0-255 scale, so `"150%"` normalizes to 2. -/
theorem C5_fan_clamp_amended :
    (∀ q : ℚ, q < 0 → normalize_fan_speed (.num q) = 0) ∧
    (∀ q : ℚ, (255 : ℚ) < q → normalize_fan_speed (.num q) = 255) ∧
    (∀ q : ℚ, q < 0 → normalize_fan_speed (.strPercent q) = 0) ∧
    (∀ v : SpeedInput, 0 ≤ normalize_fan_speed v ∧ normalize_fan_speed v ≤ 255) ∧
    normalize_fan_speed (.strPercent 150) = 2 := by
  refine ⟨?_, ?_, ?_, ?_, ?_⟩
  · intro q hq
    exact normalize_fan_speed_nonpos hq rfl
  · intro q hq
    have hr : (255 : ℤ) ≤ pythonRound q :=
      le_pythonRound_of_le (by exact_mod_cast hq.le)
    have hcond : ¬(0 ≤ q ∧ q ≤ 1) :=
      fun hc => absurd (hc.2.trans (by norm_num)) (not_le.mpr hq)
    simp only [normalize_fan_speed, parse_numeric_speed]
    rw [if_neg hcond]
    omega
  · intro q hq
    exact normalize_fan_speed_nonpos (x := q / 100)
      (div_neg_of_neg_of_pos hq (by norm_num))
      (by simp [parse_numeric_speed])
  · intro v
    simp only [normalize_fan_speed]
    constructor <;> omega
  · norm_num [normalize_fan_speed, parse_numeric_speed, pythonRound]

/-- C5, counterexample to the claim as stated: the percent string
`"150%"` normalizes to 2, not to 255. -/
theorem C5_fan_clamp_counterexample :
    normalize_fan_speed (.strPercent 150) = 2 ∧ (2 : ℤ) ≠ 255 := by
  refine ⟨?_, by decide⟩
  norm_num [normalize_fan_speed, parse_numeric_speed, pythonRound]

theorem C5_fan_clamp_witness :
    normalize_fan_speed (.num (-5)) = 0 ∧
    normalize_fan_speed (.num 300) = 255 ∧
    normalize_fan_speed (.strPercent (-10)) = 0 :=
  ⟨C5_fan_clamp_amended.1 (-5) (by norm_num),
   C5_fan_clamp_amended.2.1 300 (by norm_num),
   C5_fan_clamp_amended.2.2.1 (-10) (by norm_num)⟩

/-- C9 (confirmed). Numeric fan-speed inputs in `[0, 1]` are read as
fractions of full scale and multiplied by 255 (the clamp being inert
there), so the integer 1 normalizes to 255; values strictly above 1 are
rounded on the raw 0-255 scale; and `build_fan_command target 1` equals
`build_fan_command target 255` for every target. -/
theorem C9_unit_range_fraction :
    (∀ q : ℚ, 0 ≤ q → q ≤ 1 → normalize_fan_speed (.num q) = pythonRound (q * 255)) ∧
    normalize_fan_speed (.num 1) = 255 ∧
    (∀ q : ℚ, 1 < q → normalize_fan_speed (.num q) = max 0 (min 255 (pythonRound q))) ∧
    (∀ fan : Option String,
      build_fan_command fan (.num 1) = build_fan_command fan (.num 255)) := by
  have h1 : normalize_fan_speed (.num 1) = 255 := by
    norm_num [normalize_fan_speed, parse_numeric_speed, pythonRound]
  have h255 : normalize_fan_speed (.num 255) = 255 := by
    norm_num [normalize_fan_speed, parse_numeric_speed, pythonRound]
  refine ⟨?_, h1, ?_, ?_⟩
  · intro q h0 hle
    have hlo : (0 : ℤ) ≤ pythonRound (q * 255) :=
      le_pythonRound_of_le (by push_cast; exact mul_nonneg h0 (by norm_num))
    have hhi : pythonRound (q * 255) ≤ (255 : ℤ) := by
      refine pythonRound_le_of_le ?_
      push_cast
      calc q * 255 ≤ 1 * 255 := mul_le_mul_of_nonneg_right hle (by norm_num)
        _ = 255 := by norm_num
    simp only [normalize_fan_speed, parse_numeric_speed]
    rw [if_pos ⟨h0, hle⟩]
    omega
  · intro q hq
    have hcond : ¬(0 ≤ q ∧ q ≤ 1) := fun hc => absurd hc.2 (not_le.mpr hq)
    simp only [normalize_fan_speed, parse_numeric_speed]
    rw [if_neg hcond]
  · intro fan
    rcases hft : normalize_fan_target fan with e | t <;>
      simp [build_fan_command, hft, h1, h255]

theorem C9_unit_range_witness :
    normalize_fan_speed (.num (1/2)) = pythonRound ((1/2 : ℚ) * 255) :=
  C9_unit_range_fraction.1 (1/2) (by norm_num) (by norm_num)

/-- C4 (corrected). `publish_command` never surfaces a NotConnected
error: with no client or a disconnected session it silently drops the
command (logging and returning `None`), sending nothing; otherwise it
serializes the command and publishes it on `device/{serial}/request`.
Nothing is ever buffered. -/
theorem C4_publish_amended (hasClient connected : Bool) (serial : String)
    (cmd : VendorCmd) :
    publish_command hasClient connected serial cmd =
      (if hasClient && connected
       then PubStep.published ("device/" ++ serial ++ "/request") cmd (serializeCmd cmd)
       else PubStep.dropped) ∧
    publish_command hasClient connected serial cmd ≠ PubStep.errorNotConnected := by
  cases hasClient <;> cases connected <;> simp [publish_command]

/-- C4, counterexample to the claim as stated: with a disconnected
session `publish_command` yields the silent-drop outcome, not a
NotConnected error. -/
theorem C4_publish_counterexample :
    publish_command true false "00M00A000000000" VendorCmd.pause = PubStep.dropped ∧
    PubStep.dropped ≠ PubStep.errorNotConnected :=
  ⟨rfl, by decide⟩

/-- C6 (confirmed). A bed target above the hard maximum of 120 is
rejected by the range check before the connection check and before any
encoding or publish: `set_bed_temp` returns the structured out-of-range
error and the list of publish steps is empty, whatever the connection
state and wait flag. -/
theorem C6_bed_overtemp_rejected (hasClient connected wait : Bool)
    (serial : String) (t : ℚ) (h : (120 : ℚ) < t) :
    set_bed_temp hasClient connected serial t wait
      = (TempCmdResult.errOutOfRange t 0 120, []) := by
  simp [set_bed_temp, send_temperature_command, h]

theorem C6_bed_overtemp_witness :
    set_bed_temp true true "00M00A000000000" 500 false
      = (TempCmdResult.errOutOfRange 500 0 120, []) :=
  C6_bed_overtemp_rejected true true false "00M00A000000000" 500 (by norm_num)

/-- C10 (confirmed). In `send_temperature_command` the bed is always
encoded with the wait-for-reach variant `M190` regardless of the wait
flag; the extruder is encoded `M109` whenever the rounded target is 0
even with `wait = false`, and `M104` exactly for a nonzero rounded
target with `wait = false`; with `wait = true` the extruder always gets
`M109`. -/
theorem C10_temp_gcode_variants (serial : String) (t : ℚ) (wait : Bool) :
    (0 ≤ t → t ≤ 120 →
      sent_gcodes (send_temperature_command true true serial "bed" t wait).2
        = ["M190 S" ++ toString (pythonRound t) ++ " \n"]) ∧
    (0 ≤ t → t ≤ 300 → pythonRound t = 0 →
      sent_gcodes (send_temperature_command true true serial "extruder" t wait).2
        = ["M109 S" ++ toString (pythonRound t) ++ " \n"]) ∧
    (0 ≤ t → t ≤ 300 → pythonRound t ≠ 0 → wait = false →
      sent_gcodes (send_temperature_command true true serial "extruder" t wait).2
        = ["M104 S" ++ toString (pythonRound t) ++ " \n"]) ∧
    (0 ≤ t → t ≤ 300 → wait = true →
      sent_gcodes (send_temperature_command true true serial "extruder" t wait).2
        = ["M109 S" ++ toString (pythonRound t) ++ " \n"]) := by
  refine ⟨?_, ?_, ?_, ?_⟩
  · intro h0 hle
    have hnr : ¬(t < 0 ∨ (120 : ℚ) < t) := by
      push_neg
      exact ⟨h0, hle⟩
    simp [send_temperature_command, send_gcode_line, publish_command,
      sent_gcodes, hnr]
  · intro h0 hle hr0
    have hnr : ¬(t < 0 ∨ (300 : ℚ) < t) := by
      push_neg
      exact ⟨h0, hle⟩
    simp [send_temperature_command, send_gcode_line, publish_command,
      sent_gcodes, hnr, hr0]
  · intro h0 hle hr0 hw
    have hnr : ¬(t < 0 ∨ (300 : ℚ) < t) := by
      push_neg
      exact ⟨h0, hle⟩
    simp [send_temperature_command, send_gcode_line, publish_command,
      sent_gcodes, hnr, hr0, hw]
  · intro h0 hle hw
    have hnr : ¬(t < 0 ∨ (300 : ℚ) < t) := by
      push_neg
      exact ⟨h0, hle⟩
    simp [send_temperature_command, send_gcode_line, publish_command,
      sent_gcodes, hnr, hw]

theorem C10_temp_gcode_witness :
    sent_gcodes (send_temperature_command true true "00M00A000000000" "bed" 60 false).2
      = ["M190 S" ++ toString (pythonRound (60 : ℚ)) ++ " \n"] ∧
    sent_gcodes (send_temperature_command true true "00M00A000000000" "extruder" 0 false).2
      = ["M109 S" ++ toString (pythonRound (0 : ℚ)) ++ " \n"] ∧
    sent_gcodes (send_temperature_command true true "00M00A000000000" "extruder" 210 false).2
      = ["M104 S" ++ toString (pythonRound (210 : ℚ)) ++ " \n"] :=
  ⟨(C10_temp_gcode_variants "00M00A000000000" 60 false).1 (by norm_num) (by norm_num),
   (C10_temp_gcode_variants "00M00A000000000" 0 false).2.1 (by norm_num) (by norm_num)
     (by norm_num [pythonRound]),
   (C10_temp_gcode_variants "00M00A000000000" 210 false).2.2.1 (by norm_num) (by norm_num)
     (by norm_num [pythonRound]) rfl⟩

theorem append_history_step_le {series : List ℚ} (h : series.length ≤ 600)
    (value : Option ℚ) : (append_history_value series value).length ≤ 600 := by
  cases value with
  | none => simpa [append_history_value] using h
  | some v =>
    simp only [append_history_value]
    split_ifs with hlen <;> simp_all

/-- C8 (confirmed). Starting from any series of at most 600 samples,
any sequence of history appends keeps every series at 600 samples or
fewer, and on overflow exactly the oldest sample is evicted: appending
to a full series of 600 yields the tail of the old series followed by
the new sample (FIFO order preserved). -/
theorem C8_history_bounded (series : List ℚ) (ops : List (Option ℚ))
    (h : series.length ≤ 600) :
    (ops.foldl append_history_value series).length ≤ 600 ∧
    (∀ v : ℚ, series.length = 600 →
      append_history_value series (some v) = series.drop 1 ++ [v]) := by
  constructor
  · induction ops generalizing series with
    | nil => simpa using h
    | cons op rest ih => exact ih _ (append_history_step_le h op)
  · intro v h600
    cases series with
    | nil => simp at h600
    | cons a s2 =>
      have hlen : 600 < ((a :: s2) ++ [v]).length := by
        simp at h600 ⊢
        omega
      simp only [append_history_value, if_pos hlen]
      simp

theorem C8_history_witness :
    ((([some 1, none, some 2] : List (Option ℚ)).foldl append_history_value []).length ≤ 600) ∧
    (append_history_value (List.replicate 600 (0 : ℚ)) (some 1)
      = (List.replicate 600 (0 : ℚ)).drop 1 ++ [1]) :=
  ⟨(C8_history_bounded [] [some 1, none, some 2] (by simp)).1,
   (C8_history_bounded (List.replicate 600 0) [] (by rw [List.length_replicate])).2 1
     (by rw [List.length_replicate])⟩

/-- C3, counterexample to the claim as stated: with a job already open
and last status `paused`, a reported transition to `printing` is not a
no-op — it opens a fresh job record. -/
theorem C3_counterexample_paused_to_printing :
    (handle_print_state_change pausedOpenJob "printing" "f.gcode" 0 "job2" 10).current_job_id
        = some "job2" ∧
    handle_print_state_change pausedOpenJob "printing" "f.gcode" 0 "job2" 10
        ≠ pausedOpenJob := by
  constructor
  · simp [handle_print_state_change, pausedOpenJob]
  · intro h
    have h2 := congrArg JobState.current_job_id h
    simp [handle_print_state_change, pausedOpenJob] at h2

/-- C3 (corrected). The job tracker opens a new Job Record (fresh id,
start = now) on every transition to `printing` from a non-printing prior
status — also while a job is already open, whose open record is then
replaced; a repeated `printing` report is a no-op, and any transition not
in the table (unlisted statuses, or terminal statuses with no open job)
only records the last seen status. -/
theorem C3_job_open_amended (s : JobState) (new filename fresh : String)
    (fil now : ℚ) :
    (new = "printing" → s.last_print_state ≠ "printing" →
      handle_print_state_change s new filename fil fresh now =
        { s with current_job_id := some fresh, current_job_start := some now,
                 last_print_state := new }) ∧
    (new = "printing" → s.last_print_state = "printing" →
      handle_print_state_change s new filename fil fresh now = s) ∧
    (new ≠ "printing" → new ≠ "complete" → new ≠ "cancelled" → new ≠ "error" →
      new ≠ "standby" →
      handle_print_state_change s new filename fil fresh now =
        { s with last_print_state := new }) ∧
    ((new = "complete" ∨ new = "cancelled" ∨ new = "error" ∨ new = "standby") →
      truthyId s.current_job_id = false →
      handle_print_state_change s new filename fil fresh now =
        { s with last_print_state := new }) := by
  refine ⟨?_, ?_, ?_, ?_⟩
  · intro h1 h2
    subst h1
    rw [handle_print_state_change, if_pos ⟨rfl, h2⟩]
  · intro h1 h2
    obtain ⟨a, b, c, d⟩ := s
    simp only at h2
    subst h1
    subst h2
    simp [handle_print_state_change]
  · intro h1 h2 h3 h4 h5
    simp [handle_print_state_change, h1, h2, h3, h4, h5]
  · intro hs ht
    rcases hs with rfl | rfl | rfl | rfl <;>
      simp [handle_print_state_change, ht]

theorem C3_job_open_witness :
    handle_print_state_change pausedOpenJob "printing" "g.gcode" 0 "job9" 42
      = { pausedOpenJob with
            current_job_id := some "job9",
            current_job_start := some 42,
            last_print_state := "printing" } ∧
    handle_print_state_change pausedOpenJob "resumehold" "g.gcode" 0 "job9" 42
      = { pausedOpenJob with last_print_state := "resumehold" } :=
  ⟨(C3_job_open_amended pausedOpenJob "printing" "g.gcode" "job9" 0 42).1 rfl
     (by decide),
   (C3_job_open_amended pausedOpenJob "resumehold" "g.gcode" "job9" 0 42).2.2.1
     (by decide) (by decide) (by decide) (by decide) (by decide)⟩

/-- C7, counterexample to the claim as stated: a denylisted
housekeeping name appears in the returned fallback listing (classified
as a directory) instead of being filtered out. -/
theorem C7_denylist_counterexample :
    list_files_fallback 0 (fun _ => SizeResult.fails) "/" ["timelapse"]
      = [{ name := "timelapse", is_dir := true, size := 0, modified := 0 }] ∧
    "timelapse" ∈ known_dirs := by
  constructor
  · simp [list_files_fallback, fallback_classify, known_dirs]
  · decide

/-- C7 (corrected). The NLST fallback returns one entry per raw name
(only `"."` and `".."` are skipped); a name outside the denylist is
classified a directory exactly when its size probe fails and the name
contains no dot; but names in the fixed denylist of vendor-housekeeping
directories are not filtered out of the returned listing — each is
included, pre-classified as a directory without a size probe. -/
theorem C7_fallback_amended (now : ℚ) (probe : String → SizeResult)
    (path : String) (names : List String) :
    ((list_files_fallback now probe path names).map FileEntry.name
       = names.filter (fun n => !decide (n = "." ∨ n = ".."))) ∧
    (∀ e ∈ list_files_fallback now probe path names,
       (e.name ∈ known_dirs → e.is_dir = true ∧ e.size = 0) ∧
       (e.name ∉ known_dirs →
         e.is_dir = (decide (probe (fallback_full_path path e.name) = SizeResult.fails)
                      && !hasDot e.name))) ∧
    (∀ n ∈ names, n ∈ known_dirs →
       ∃ e ∈ list_files_fallback now probe path names,
         e.name = n ∧ e.is_dir = true) := by
  refine ⟨?_, ?_, ?_⟩
  · induction names with
    | nil => simp [list_files_fallback]
    | cons name rest ih =>
      by_cases hd : name = "." ∨ name = ".."
      · have hno : ¬(¬name = "." ∧ ¬name = "..") := fun hc => hd.elim hc.1 hc.2
        simp [list_files_fallback, List.filter_cons, hd, ih, hno]
      · have hyes := not_or.mp hd
        simp [list_files_fallback, List.filter_cons, hd, ih, hyes.1, hyes.2]
  · induction names with
    | nil => simp [list_files_fallback]
    | cons name rest ih =>
      intro e he
      by_cases hd : name = "." ∨ name = ".."
      · refine ih e ?_
        simp only [list_files_fallback] at he
        rwa [if_pos hd] at he
      · simp only [list_files_fallback] at he
        rw [if_neg hd] at he
        rcases List.mem_cons.mp he with rfl | hmem
        · constructor
          · intro hk
            simp only [FileEntry.is_dir, FileEntry.size] at *
            simp [fallback_classify, hk]
          · intro hk
            simp only [FileEntry.is_dir, FileEntry.name] at *
            rcases hp : probe (fallback_full_path path name) with _ | _ | n <;>
              simp [fallback_classify, hk, hp]
        · exact ih e hmem
  · induction names with
    | nil => simp
    | cons name rest ih =>
      intro n hn hk
      have hname : n ≠ "." ∧ n ≠ ".." := by
        constructor <;> rintro rfl <;> revert hk <;> decide
      rcases List.mem_cons.mp hn with rfl | hmem
      · refine ⟨{ name := n, is_dir := (fallback_classify probe path n).1,
                  size := (fallback_classify probe path n).2, modified := now },
            ?_, rfl, ?_⟩
        · simp only [list_files_fallback]
          rw [if_neg (not_or.mpr ⟨hname.1, hname.2⟩)]
          exact List.mem_cons_self _ _
        · simp [fallback_classify, hk]
      · obtain ⟨e, he, hen, hed⟩ := ih n hmem hk
        by_cases hd : name = "." ∨ name = ".."
        · refine ⟨e, ?_, hen, hed⟩
          simp only [list_files_fallback]
          rwa [if_pos hd]
        · refine ⟨e, ?_, hen, hed⟩
          simp only [list_files_fallback]
          rw [if_neg hd]
          exact List.mem_cons_of_mem _ he

theorem C7_fallback_witness :
    ∃ e ∈ list_files_fallback 0 (fun _ => SizeResult.fails) "/" ["timelapse", "a.gcode"],
      e.name = "timelapse" ∧ e.is_dir = true :=
  (C7_fallback_amended 0 (fun _ => SizeResult.fails) "/" ["timelapse", "a.gcode"]).2.2
    "timelapse" (by decide) (by decide)

theorem dget_dset_self {α : Type} (d : List (String × α)) (k : String) (v : α) :
    dget (dset d k v) k = some v := by
  induction d with
  | nil => simp [dget, dset]
  | cons p rest ih =>
    obtain ⟨k0, v0⟩ := p
    by_cases h : k0 = k
    · subst h
      simp [dget, dset]
    · simp [dget, dset, h, ih]

theorem dget_dset_ne {α : Type} (d : List (String × α)) (k k' : String) (v : α)
    (h : k' ≠ k) : dget (dset d k v) k' = dget d k' := by
  induction d with
  | nil => simp [dget, dset, Ne.symm h]
  | cons p rest ih =>
    obtain ⟨k0, v0⟩ := p
    by_cases h0 : k0 = k
    · subst h0
      simp [dget, dset, Ne.symm h]
    · by_cases h1 : k0 = k'
      · subst h1
        simp [dget, dset, h0]
      · simp [dget, dset, h0, h1, ih]

theorem mem_of_dget_some {α : Type} {d : List (String × α)} {k : String} {v : α}
    (h : dget d k = some v) : (k, v) ∈ d := by
  induction d with
  | nil => simp [dget] at h
  | cons p rest ih =>
    obtain ⟨k0, v0⟩ := p
    by_cases h0 : k0 = k
    · subst h0
      simp only [dget, if_pos rfl] at h
      injection h with h
      subst h
      exact List.mem_cons_self _ _
    · simp only [dget, if_neg h0] at h
      exact List.mem_cons_of_mem _ (ih h)

theorem keys_mem_of_dget_some {α : Type} {d : List (String × α)} {k : String}
    {v : α} (h : dget d k = some v) : k ∈ d.map Prod.fst :=
  List.mem_map.mpr ⟨(k, v), mem_of_dget_some h, rfl⟩

theorem pyEq_refl (a : PyVal) : pyEq a a = true := by
  cases a <;> simp [pyEq, pyNumVal]

theorem pyNe_self_false (v : PyVal) : pyNe (some v) v = false := by
  simp [pyNe, pyEq_refl]

theorem dget2_cons_self (c0 : String) (values : StateObj) (rest : StateMap)
    (k : String) : dget2 ((c0, values) :: rest) c0 k = dget values k := by
  simp [dget2, dget]

theorem dget2_cons_ne {c0 c : String} (values : StateObj) (rest : StateMap)
    (k : String) (h : ¬c0 = c) :
    dget2 ((c0, values) :: rest) c k = dget2 rest c k := by
  simp [dget2, dget, h]

theorem applyFields_fst_not_mem (values : StateObj) :
    ∀ (cur : StateObj) (k : String), k ∉ values.map Prod.fst →
      dget (applyFields cur values).1 k = dget cur k := by
  induction values with
  | nil =>
    intro cur k _
    simp [applyFields]
  | cons p rest ih =>
    intro cur k hk
    obtain ⟨k0, v0⟩ := p
    simp only [List.map_cons, List.mem_cons] at hk
    push_neg at hk
    cases hp : pyNe (dget cur k0) v0 with
    | true =>
      simp only [applyFields, hp, if_true]
      rw [ih _ k hk.2, dget_dset_ne _ _ _ _ hk.1]
    | false =>
      simp only [applyFields, hp, if_false]
      exact ih cur k hk.2

theorem dget_cons_self {α : Type} (k : String) (v : α) (rest : List (String × α)) :
    dget ((k, v) :: rest) k = some v := by
  simp [dget]

theorem dget_cons_ne {α : Type} {k0 k : String} (v : α) (rest : List (String × α))
    (h : ¬k0 = k) : dget ((k0, v) :: rest) k = dget rest k := by
  simp [dget, h]

theorem applyFields_cons_true {cur : StateObj} {k0 : String} {v0 : PyVal}
    {rest : StateObj} (hp : pyNe (dget cur k0) v0 = true) :
    applyFields cur ((k0, v0) :: rest) =
      ((applyFields (dset cur k0 v0) rest).1,
       (k0, v0) :: (applyFields (dset cur k0 v0) rest).2) := by
  simp [applyFields, hp]

theorem applyFields_cons_false {cur : StateObj} {k0 : String} {v0 : PyVal}
    {rest : StateObj} (hp : pyNe (dget cur k0) v0 = false) :
    applyFields cur ((k0, v0) :: rest) = applyFields cur rest := by
  simp [applyFields, hp]

theorem applyFields_snd_dget (values : StateObj) :
    ∀ (cur : StateObj), (values.map Prod.fst).Nodup →
    ∀ (k : String) (v : PyVal),
      (dget (applyFields cur values).2 k = some v ↔
        (dget values k = some v ∧ pyNe (dget cur k) v = true)) := by
  induction values with
  | nil =>
    intro cur _ k v
    simp [applyFields, dget]
  | cons p rest ih =>
    intro cur hnd k v
    obtain ⟨k0, v0⟩ := p
    simp only [List.map_cons, List.nodup_cons] at hnd
    cases hp : pyNe (dget cur k0) v0 with
    | true =>
      rw [applyFields_cons_true hp]
      by_cases hk : k0 = k
      · subst hk
        rw [dget_cons_self, dget_cons_self]
        simp only [Option.some.injEq]
        constructor
        · rintro rfl
          exact ⟨rfl, hp⟩
        · rintro ⟨rfl, _⟩
          rfl
      · rw [dget_cons_ne _ _ hk, dget_cons_ne _ _ hk,
          ih (dset cur k0 v0) hnd.2 k v,
          dget_dset_ne _ _ _ _ (fun hh => hk hh.symm)]
    | false =>
      rw [applyFields_cons_false hp, ih cur hnd.2 k v]
      by_cases hk : k0 = k
      · subst hk
        have hnone : dget rest k0 = none := by
          cases hres : dget rest k0 with
          | none => rfl
          | some w => exact absurd (keys_mem_of_dget_some hres) hnd.1
        rw [hnone, dget_cons_self]
        simp only [Option.some.injEq]
        constructor
        · rintro ⟨h1, _⟩
          cases h1
        · rintro ⟨rfl, h2⟩
          rw [h2] at hp
          cases hp
      · rw [dget_cons_ne _ _ hk]

theorem applyFields_fst_pyEq (values : StateObj) :
    ∀ (cur : StateObj), (values.map Prod.fst).Nodup →
    ∀ (k : String) (v : PyVal), dget values k = some v →
      pyNe (dget (applyFields cur values).1 k) v = false := by
  induction values with
  | nil =>
    intro cur _ k v h
    simp [dget] at h
  | cons p rest ih =>
    intro cur hnd k v hv
    obtain ⟨k0, v0⟩ := p
    simp only [List.map_cons, List.nodup_cons] at hnd
    by_cases hk : k0 = k
    · subst hk
      rw [dget_cons_self] at hv
      injection hv with hv
      cases hp : pyNe (dget cur k0) v0 with
      | true =>
        rw [applyFields_cons_true hp,
          applyFields_fst_not_mem rest _ k0 hnd.1, dget_dset_self, ← hv]
        exact pyNe_self_false v0
      | false =>
        rw [applyFields_cons_false hp,
          applyFields_fst_not_mem rest cur k0 hnd.1, ← hv]
        exact hp
    · rw [dget_cons_ne _ _ hk] at hv
      cases hp : pyNe (dget cur k0) v0 with
      | true =>
        rw [applyFields_cons_true hp]
        exact ih _ hnd.2 k v hv
      | false =>
        rw [applyFields_cons_false hp]
        exact ih cur hnd.2 k v hv

theorem update_state_cons_some {st : StateMap} {c : String} {values : StateObj}
    {rest : StateMap} {cur : StateObj} (h : dget st c = some cur) :
    update_state st ((c, values) :: rest) =
      ((update_state (dset st c (applyFields cur values).1) rest).1,
       if (applyFields cur values).2 = []
       then (update_state (dset st c (applyFields cur values).1) rest).2
       else (c, (applyFields cur values).2)
              :: (update_state (dset st c (applyFields cur values).1) rest).2) := by
  simp [update_state, h]

theorem update_state_cons_none {st : StateMap} {c : String} {values : StateObj}
    {rest : StateMap} (h : dget st c = none) :
    update_state st ((c, values) :: rest) = update_state st rest := by
  simp [update_state, h]

theorem update_state_fst_not_mem (ups : StateMap) :
    ∀ (st : StateMap) (c : String), c ∉ ups.map Prod.fst →
      dget (update_state st ups).1 c = dget st c := by
  induction ups with
  | nil =>
    intro st c _
    simp [update_state]
  | cons p rest ih =>
    obtain ⟨c0, values⟩ := p
    intro st c hc
    simp only [List.map_cons, List.mem_cons] at hc
    push_neg at hc
    cases hst : dget st c0 with
    | some cur =>
      rw [update_state_cons_some hst]
      exact (ih _ c hc.2).trans (dget_dset_ne _ _ _ _ hc.1)
    | none =>
      rw [update_state_cons_none hst]
      exact ih st c hc.2

theorem update_state_fst_none (ups : StateMap) :
    ∀ (st : StateMap) (c : String), dget st c = none →
      dget (update_state st ups).1 c = none := by
  induction ups with
  | nil =>
    intro st c h
    simpa [update_state] using h
  | cons p rest ih =>
    obtain ⟨c0, values⟩ := p
    intro st c hc
    cases hst : dget st c0 with
    | some cur =>
      rw [update_state_cons_some hst]
      refine ih _ c ?_
      by_cases he : c0 = c
      · subst he
        rw [hst] at hc
        cases hc
      · rw [dget_dset_ne _ _ _ _ (fun hh => he hh.symm)]
        exact hc
    | none =>
      rw [update_state_cons_none hst]
      exact ih st c hc

theorem update_state_fst_some (ups : StateMap) :
    ∀ (st : StateMap), (ups.map Prod.fst).Nodup →
    ∀ (c : String) (values cur : StateObj),
      dget ups c = some values → dget st c = some cur →
      dget (update_state st ups).1 c = some (applyFields cur values).1 := by
  induction ups with
  | nil =>
    intro st _ c values cur h _
    simp [dget] at h
  | cons p rest ih =>
    obtain ⟨c0, values0⟩ := p
    intro st hnd c values cur hu hs
    simp only [List.map_cons, List.nodup_cons] at hnd
    by_cases hc : c0 = c
    · subst hc
      rw [dget_cons_self] at hu
      injection hu with hu
      subst hu
      rw [update_state_cons_some hs,
        update_state_fst_not_mem rest _ c0 hnd.1, dget_dset_self]
    · rw [dget_cons_ne _ _ hc] at hu
      cases hst : dget st c0 with
      | some cur0 =>
        rw [update_state_cons_some hst]
        refine ih _ hnd.2 c values cur hu ?_
        rw [dget_dset_ne _ _ _ _ (fun hh => hc hh.symm)]
        exact hs
      | none =>
        rw [update_state_cons_none hst]
        exact ih st hnd.2 c values cur hu hs

theorem delta_key_mem (ups : StateMap) :
    ∀ (st : StateMap) (p : String × StateObj), p ∈ (update_state st ups).2 →
      p.1 ∈ ups.map Prod.fst := by
  induction ups with
  | nil =>
    intro st p hp
    simp [update_state] at hp
  | cons q rest ih =>
    obtain ⟨c0, values⟩ := q
    intro st p hp
    simp only [List.map_cons, List.mem_cons]
    cases hst : dget st c0 with
    | some cur =>
      rw [update_state_cons_some hst] at hp
      by_cases happ : (applyFields cur values).2 = []
      · rw [if_pos happ] at hp
        exact Or.inr (ih _ p hp)
      · rw [if_neg happ] at hp
        rcases List.mem_cons.mp hp with rfl | hmem
        · exact Or.inl rfl
        · exact Or.inr (ih _ p hmem)
    | none =>
      rw [update_state_cons_none hst] at hp
      exact Or.inr (ih st p hp)

theorem delta_obj_ne_nil (ups : StateMap) :
    ∀ (st : StateMap) (p : String × StateObj), p ∈ (update_state st ups).2 →
      p.2 ≠ [] := by
  induction ups with
  | nil =>
    intro st p hp
    simp [update_state] at hp
  | cons q rest ih =>
    obtain ⟨c0, values⟩ := q
    intro st p hp
    cases hst : dget st c0 with
    | some cur =>
      rw [update_state_cons_some hst] at hp
      by_cases happ : (applyFields cur values).2 = []
      · rw [if_pos happ] at hp
        exact ih _ p hp
      · rw [if_neg happ] at hp
        rcases List.mem_cons.mp hp with rfl | hmem
        · exact happ
        · exact ih _ p hmem
    | none =>
      rw [update_state_cons_none hst] at hp
      exact ih st p hp

theorem update_state_snd_dget (ups : StateMap) :
    ∀ (st : StateMap), (ups.map Prod.fst).Nodup →
      (∀ p ∈ ups, (p.2.map Prod.fst).Nodup) →
      ∀ (c k : String) (v : PyVal),
        (dget2 (update_state st ups).2 c k = some v ↔
          (dget2 ups c k = some v ∧
           ∃ cur, dget st c = some cur ∧ pyNe (dget cur k) v = true)) := by
  induction ups with
  | nil =>
    intro st _ _ c k v
    simp [update_state, dget2, dget]
  | cons q rest ih =>
    obtain ⟨c0, values⟩ := q
    intro st hnd hnd2 c k v
    simp only [List.map_cons, List.nodup_cons] at hnd
    have hv0 : (values.map Prod.fst).Nodup := hnd2 (c0, values) (List.mem_cons_self _ _)
    have hrest2 : ∀ p ∈ rest, (p.2.map Prod.fst).Nodup :=
      fun p hp => hnd2 p (List.mem_cons_of_mem _ hp)
    cases hst : dget st c0 with
    | some cur =>
      rw [update_state_cons_some hst]
      by_cases hc : c0 = c
      · subst hc
        have htail :
            dget (update_state (dset st c0 (applyFields cur values).1) rest).2 c0 = none := by
          cases hres :
              dget (update_state (dset st c0 (applyFields cur values).1) rest).2 c0 with
          | none => rfl
          | some w =>
            exact absurd (delta_key_mem rest _ (c0, w) (mem_of_dget_some hres)) hnd.1
        by_cases happ : (applyFields cur values).2 = []
        · rw [if_pos happ]
          have hLHS :
              dget2 (update_state (dset st c0 (applyFields cur values).1) rest).2 c0 k
                = none := by
            simp only [dget2]
            rw [htail]
            rfl
          rw [hLHS]
          constructor
          · intro h
            cases h
          · rintro ⟨h1, cur2, h2, h3⟩
            rw [hst] at h2
            injection h2 with h2
            subst h2
            rw [dget2_cons_self] at h1
            have hin := (applyFields_snd_dget values cur hv0 k v).mpr ⟨h1, h3⟩
            rw [happ] at hin
            simp [dget] at hin
        · rw [if_neg happ]
          rw [dget2_cons_self, dget2_cons_self,
            applyFields_snd_dget values cur hv0 k v]
          constructor
          · rintro ⟨h1, h2⟩
            exact ⟨h1, cur, hst, h2⟩
          · rintro ⟨h1, cur2, h2, h3⟩
            rw [hst] at h2
            injection h2 with h2
            subst h2
            exact ⟨h1, h3⟩
      · have hst2 : dget (dset st c0 (applyFields cur values).1) c = dget st c :=
          dget_dset_ne _ _ _ _ (fun hh => hc hh.symm)
        have hmain := ih (dset st c0 (applyFields cur values).1) hnd.2 hrest2 c k v
        rw [hst2] at hmain
        by_cases happ : (applyFields cur values).2 = []
        · rw [if_pos happ, hmain, dget2_cons_ne _ _ _ hc]
        · rw [if_neg happ, dget2_cons_ne _ _ _ hc, hmain, dget2_cons_ne _ _ _ hc]
    | none =>
      rw [update_state_cons_none hst, ih st hnd.2 hrest2 c k v]
      by_cases hc : c0 = c
      · subst hc
        constructor
        · rintro ⟨h1, cur2, h2, h3⟩
          rw [hst] at h2
          cases h2
        · rintro ⟨h1, cur2, h2, h3⟩
          rw [hst] at h2
          cases h2
      · rw [dget2_cons_ne _ _ _ hc]

/-- C1 (confirmed). For every update map with distinct keys (a Python
dict) and every prior observable state, the delta computed by
`update_state` holds exactly the subsystem/field pairs present in the
update whose new value differs (Python `!=`) from the current value,
with the updated value; subsystems absent from the state schema never
appear in the delta; and a notification is emitted exactly when the
delta is non-empty, so an emitted delta is never empty. -/
theorem C1_delta_exact (st ups : StateMap)
    (hnd : (ups.map Prod.fst).Nodup)
    (hnd2 : ∀ p ∈ ups, (p.2.map Prod.fst).Nodup) :
    (∀ c k v, dget2 (update_state st ups).2 c k = some v ↔
        (dget2 ups c k = some v ∧
         ∃ cur, dget st c = some cur ∧ pyNe (dget cur k) v = true)) ∧
    (∀ c, dget st c = none → dget (update_state st ups).2 c = none) ∧
    (∀ delta, update_state_notification st ups = some delta → delta ≠ []) ∧
    (update_state_notification st ups = none ↔ (update_state st ups).2 = []) := by
  refine ⟨fun c k v => update_state_snd_dget ups st hnd hnd2 c k v, ?_, ?_, ?_⟩
  · intro c hc
    cases hd : dget (update_state st ups).2 c with
    | none => rfl
    | some obj =>
      exfalso
      have hmem := mem_of_dget_some hd
      have hne := delta_obj_ne_nil ups st (c, obj) hmem
      cases obj with
      | nil => exact hne rfl
      | cons kv obj2 =>
        obtain ⟨k, v⟩ := kv
        have hget : dget2 (update_state st ups).2 c k = some v := by
          simp only [dget2]
          rw [hd]
          simp [dget]
        obtain ⟨h1, cur, h2, h3⟩ :=
          (update_state_snd_dget ups st hnd hnd2 c k v).mp hget
        rw [hc] at h2
        cases h2
  · intro delta h
    simp only [update_state_notification] at h
    by_cases hempty : (update_state st ups).2 = []
    · rw [if_pos hempty] at h
      cases h
    · rw [if_neg hempty] at h
      injection h with h
      subst h
      exact hempty
  · simp only [update_state_notification]
    by_cases hempty : (update_state st ups).2 = []
    · simp [hempty]
    · simp [hempty]

theorem C1_delta_witness :
    dget2 (update_state demoState demoUpdates).2 "print_stats" "state"
        = some (PyVal.str "printing") ∧
    dget (update_state demoState demoUpdates).2 "chamber_misc" = none := by
  have h := C1_delta_exact demoState demoUpdates (by decide) (by decide)
  refine ⟨(h.1 "print_stats" "state" (PyVal.str "printing")).mpr ?_,
    h.2.1 "chamber_misc" (by decide)⟩
  exact ⟨by decide,
    [("state", PyVal.str "standby"), ("filename", PyVal.str "")],
    by decide, by decide⟩

/-- C2 (confirmed). Applying the same update map (a Python dict, so with
distinct keys) a second time yields no delta: after the first
`update_state` every field named in the update compares Python-equal to
its updated value, so the second call records zero changed fields and
emits no notification. -/
theorem C2_idempotent (st ups : StateMap)
    (hnd : (ups.map Prod.fst).Nodup)
    (hnd2 : ∀ p ∈ ups, (p.2.map Prod.fst).Nodup) :
    (update_state (update_state st ups).1 ups).2 = [] ∧
    update_state_notification (update_state st ups).1 ups = none := by
  have hmain : (update_state (update_state st ups).1 ups).2 = [] := by
    by_contra hne
    cases hdelta : (update_state (update_state st ups).1 ups).2 with
    | nil => exact hne hdelta
    | cons p rest2 =>
      obtain ⟨c, obj⟩ := p
      have hp_mem : (c, obj) ∈ (update_state (update_state st ups).1 ups).2 := by
        rw [hdelta]
        exact List.mem_cons_self _ _
      have hobj := delta_obj_ne_nil ups (update_state st ups).1 (c, obj) hp_mem
      cases obj with
      | nil => exact hobj rfl
      | cons kv obj2 =>
        obtain ⟨k, v⟩ := kv
        have hget : dget2 (update_state (update_state st ups).1 ups).2 c k = some v := by
          simp only [dget2]
          rw [hdelta]
          simp [dget]
        obtain ⟨h1, cur1, h2, h3⟩ :=
          (update_state_snd_dget ups (update_state st ups).1 hnd hnd2 c k v).mp hget
        obtain ⟨values, hvs⟩ : ∃ values, dget ups c = some values := by
          cases hu : dget ups c with
          | none =>
            rw [dget2, hu] at h1
            cases h1
          | some values => exact ⟨values, rfl⟩
        have hvk : dget values k = some v := by
          rw [dget2, hvs] at h1
          simpa using h1
        obtain ⟨cur, hsc⟩ : ∃ cur, dget st c = some cur := by
          cases hs0 : dget st c with
          | none =>
            rw [update_state_fst_none ups st c hs0] at h2
            cases h2
          | some cur => exact ⟨cur, rfl⟩
        have hs1 : dget (update_state st ups).1 c = some (applyFields cur values).1 :=
          update_state_fst_some ups st hnd c values cur hvs hsc
        rw [hs1] at h2
        injection h2 with h2
        subst h2
        have hfalse :=
          applyFields_fst_pyEq values cur
            (hnd2 (c, values) (mem_of_dget_some hvs)) k v hvk
        rw [h3] at hfalse
        cases hfalse
  refine ⟨hmain, ?_⟩
  simp [update_state_notification, hmain]

theorem C2_idempotent_witness :
    (update_state (update_state demoState demoUpdates).1 demoUpdates).2 = [] ∧
    update_state_notification (update_state demoState demoUpdates).1 demoUpdates = none :=
  C2_idempotent demoState demoUpdates (by decide) (by decide)
